import Mathlib

/-!
Shallow embedding of the signal-to-portfolio simulation engine of
`backtest_bay` (files `analysis/backtest_signals.py` and
`analysis/generate_signals.py`).

Conventions of the embedding:
* Python floats are modelled as exact rationals (`ℚ`); Python ints as `ℤ`
  (window sizes, which are validated to be `> 1`, as `ℕ`).
* A Python `ZeroDivisionError` (float division by a zero denominator) is
  modelled by returning `none` / a dedicated error value: fallible code
  returns `Option` / `Except`.
* pandas `NaN` propagation is modelled explicitly at each site where the
  source can produce a `NaN`/`inf` (rolling windows shorter than `window`,
  zero denominators in `pct_change` and in the RSI relative strength):
  comparisons against `NaN` are false, `±inf` compares as larger/smaller
  than every number.  Each such site is commented.
* Type-level validation performed in Python (`isinstance` checks) is
  subsumed by the types of the embedding and is not re-modelled.
-/

namespace BacktestBay

/-- One row of the portfolio table produced by `backtest_signals`
(source: the tuple appended to `portfolio`, columns
`price, signal, shares, holdings, cash, assets`). -/
structure Row where
  price : ℚ
  signal : ℤ
  shares : ℤ
  holdings : ℚ
  cash : ℚ
  assets : ℚ
deriving DecidableEq, Repr, Inhabited

/-- Embeds `_is_buy_trade_affordable`. -/
def is_buy_trade_affordable (buy_shares : ℤ) (cost cash : ℚ) : Bool :=
  decide (1 ≤ buy_shares) && decide (cost ≤ cash)

/-- Embeds `_is_sell_trade_affordable`. -/
def is_sell_trade_affordable (shares : ℤ) : Bool :=
  decide (1 ≤ shares)

/-- Embeds `_execute_buy`.  The leading test models Python's
`ZeroDivisionError` on `trade_vol / (price * (1 + tac))`. -/
def execute_buy (cash price : ℚ) (shares : ℤ) (trade_vol tac : ℚ) :
    Option (ℚ × ℤ) :=
  if price * (1 + tac) = 0 then none
  else
    let buy_shares : ℤ := ⌊trade_vol / (price * (1 + tac))⌋
    let cost : ℚ := buy_shares * price * (1 + tac)
    if ¬ is_buy_trade_affordable buy_shares cost cash then some (cash, shares)
    else some (cash - cost, shares + buy_shares)

/-- Embeds `_execute_sell`.  As in the source, the division happens before
the affordability check; the leading test models Python's
`ZeroDivisionError` on `trade_vol / (price * (1 - tac))`.  The rebinding
`sell_shares = min(sell_shares, shares)` of the source is rendered by the
fresh name `sold`. -/
def execute_sell (cash price : ℚ) (shares : ℤ) (trade_vol tac : ℚ) :
    Option (ℚ × ℤ) :=
  if price * (1 - tac) = 0 then none
  else
    let sell_shares : ℤ := ⌊trade_vol / (price * (1 - tac))⌋
    if ¬ is_sell_trade_affordable shares then some (cash, shares)
    else
      let sold : ℤ := min sell_shares shares
      let profit : ℚ := sold * price * (1 - tac)
      some (cash + profit, shares - sold)

/-- Embeds `_execute_trade` (buy signal is `2`, sell signal is `1`,
anything else leaves the state unchanged). -/
def execute_trade (signal : ℤ) (cash price : ℚ) (shares : ℤ)
    (trade_vol tac : ℚ) : Option (ℚ × ℤ) :=
  if signal = 2 then execute_buy cash price shares trade_vol tac
  else if signal = 1 then execute_sell cash price shares trade_vol tac
  else some (cash, shares)

/-- Embeds `_update_portfolio`: returns `(assets, holdings)`. -/
def update_port (cash : ℚ) (shares : ℤ) (price : ℚ) : ℚ × ℚ :=
  let holdings : ℚ := (shares : ℚ) * price
  (cash + holdings, holdings)

/-- The body of the `for price, signal in zip(prices, signals)` loop of
`backtest_signals`, carrying the loop state `(cash, shares, assets)`
exactly as the source does. -/
def simAux (trade_pct tac : ℚ) (cash : ℚ) (shares : ℤ) (assets : ℚ) :
    List (ℚ × ℤ) → Option (List Row)
  | [] => some []
  | (price, signal) :: rest =>
    let trade_vol := trade_pct * assets
    match execute_trade signal cash price shares trade_vol tac with
    | none => none
    | some (cash2, shares2) =>
      let pr := update_port cash2 shares2 price
      match simAux trade_pct tac cash2 shares2 pr.1 rest with
      | none => none
      | some rows => some (⟨price, signal, shares2, pr.2, cash2, pr.1⟩ :: rows)

/-- Errors of the portfolio simulator: eager input validation failure, or a
`ZeroDivisionError` escaping from the trade executor. -/
inductive BtError
  | invalidInput
  | divByZero
deriving DecidableEq, Repr

/-- Embeds the value-level checks of `_validate_signals` (membership of
every signal in `{0, 1, 2}` and equality of lengths; the `isinstance`
checks are subsumed by the types of the embedding). -/
def validate_signals_vals (prices : List ℚ) (signals : List ℤ) : Bool :=
  signals.all (fun s => decide (s = 0 ∨ s = 1 ∨ s = 2)) &&
  decide (signals.length = prices.length)

/-- Embeds the range check of `_validate_initial_cash`. -/
def validate_initial_cash (initial_cash : ℚ) : Bool :=
  decide (0 < initial_cash)

/-- Embeds the range check of `_validate_tac` (`0 <= tac <= 1`). -/
def validate_tac (tac : ℚ) : Bool :=
  decide (0 ≤ tac) && decide (tac ≤ 1)

/-- Embeds the range check of `_validate_trade_pct` (`0 < trade_pct <= 1`). -/
def validate_trade_pct (trade_pct : ℚ) : Bool :=
  decide (0 < trade_pct) && decide (trade_pct ≤ 1)

/-- Embeds `_validate_backtest_signals_input` (value-level checks of the
five validators it calls; the `isinstance` and column checks of
`_validate_data` are subsumed by the types of the embedding). -/
def validate_backtest_signals_input (prices : List ℚ) (signals : List ℤ)
    (initial_cash tac trade_pct : ℚ) : Bool :=
  validate_signals_vals prices signals &&
  validate_initial_cash initial_cash &&
  validate_tac tac &&
  validate_trade_pct trade_pct

/-- Embeds `backtest_signals` (the `data[price_col].squeeze()` series is
the `prices` list; `cash, holdings, shares = initial_cash, 0.0, 0` and
`assets = cash + holdings`). -/
def backtest_signals (prices : List ℚ) (signals : List ℤ)
    (initial_cash tac trade_pct : ℚ) : Except BtError (List Row) :=
  if validate_backtest_signals_input prices signals initial_cash tac trade_pct then
    match simAux trade_pct tac initial_cash 0 (initial_cash + 0) (prices.zip signals) with
    | none => Except.error BtError.divByZero
    | some rows => Except.ok rows
  else Except.error BtError.invalidInput

/-! ### Indicator engine (`generate_signals.py`) -/

/-- Access of the price series by position, modelling `prices.iloc[i]`
(the default `0` is never reached at the indices the generators use). -/
def priceAt (prices : List ℚ) (i : ℕ) : ℚ := prices.getD i 0

/-- Sum of `f lo, f (lo+1), ..., f (lo+len-1)` (the sum over one rolling
window). -/
def windowSum (f : ℕ → ℚ) (lo len : ℕ) : ℚ :=
  ((List.range len).map fun j => f (lo + j)).sum

/-- `prices.rolling(window=w).mean()` at position `i`, defined (non-`NaN`)
only when `i + 1 ≥ w`; callers guard that case. -/
def rollingMean (prices : List ℚ) (w i : ℕ) : ℚ :=
  windowSum (priceAt prices) (i + 1 - w) w / (w : ℚ)

/-- `prices.rolling(window=w).std()` squared, i.e. the sample variance with
`ddof = 1`, at position `i` (defined only when `i + 1 ≥ w`). -/
def rollingVar (prices : List ℚ) (w i : ℕ) : ℚ :=
  let m := rollingMean prices w i
  windowSum (fun j => (priceAt prices j - m) ^ 2) (i + 1 - w) w / ((w : ℚ) - 1)

/-- The raw (pre-shift) Bollinger signal at position `i`.  For the first
`w - 1` positions the bands are `NaN` and neither comparison triggers.
The source compares `price > mean + k·std` (sell, assigned last) and
`price < mean - k·std` (buy); since `√` is irrational, the comparison is
embedded by its exact square-free equivalent, valid for `k > 0` (which
validation guarantees): `p - m > k·√v  ⟺  p - m > 0 ∧ (p - m)² > k²·v`. -/
def bollingerRawAt (prices : List ℚ) (w : ℕ) (k : ℚ) (i : ℕ) : ℤ :=
  if i + 1 < w then 0
  else
    let p := priceAt prices i
    let m := rollingMean prices w i
    let v := rollingVar prices w i
    if 0 < p - m ∧ k ^ 2 * v < (p - m) ^ 2 then 1
    else if 0 < m - p ∧ k ^ 2 * v < (m - p) ^ 2 then 2
    else 0

/-- The raw Bollinger signal series (before the one-bar shift). -/
def bollingerRaw (prices : List ℚ) (w : ℕ) (k : ℚ) : List ℤ :=
  (List.range prices.length).map (bollingerRawAt prices w k)

/-- The recursive part of `ewm(span=s, adjust=False).mean()`:
`y_t = (1 - a)·y_{t-1} + a·x_t`. -/
def emaFrom (a y : ℚ) : List ℚ → List ℚ
  | [] => []
  | x :: xs =>
    let y2 := (1 - a) * y + a * x
    y2 :: emaFrom a y2 xs

/-- `xs.ewm(span=span, adjust=False).mean()`: smoothing factor
`a = 2 / (span + 1)`, first value seeded by the first element. -/
def ewmMean (span : ℕ) (xs : List ℚ) : List ℚ :=
  let a : ℚ := 2 / ((span : ℚ) + 1)
  match xs with
  | [] => []
  | x :: rest => x :: emaFrom a x rest

/-- The pointwise MACD comparison: buy (`2`) when the MACD line is above
the signal line, sell (`1`) when below (sell assigned last in source, the
cases are exclusive). -/
def macdCmp (m s : ℚ) : ℤ :=
  if s < m then 2 else if m < s then 1 else 0

/-- The raw MACD signal series (before the one-bar shift). -/
def macdRaw (prices : List ℚ) (short_window long_window signal_window : ℕ) :
    List ℤ :=
  let short_ema := ewmMean short_window prices
  let long_ema := ewmMean long_window prices
  let macd_line := List.zipWith (fun a b => a - b) short_ema long_ema
  let signal_line := ewmMean signal_window macd_line
  List.zipWith macdCmp macd_line signal_line

/-- The raw ROC signal at position `i`: `pct_change(periods=w-1)` is `NaN`
for the first `w - 1` positions (no signal).  A zero reference price gives
`±inf` (sign of the numerator) or `NaN` in pandas; that case is modelled
explicitly. -/
def rocRawAt (prices : List ℚ) (w i : ℕ) : ℤ :=
  if i + 1 < w then 0
  else
    let pref := priceAt prices (i - (w - 1))
    let pcur := priceAt prices i
    if pref = 0 then
      if 0 < pcur then 2 else if pcur < 0 then 1 else 0
    else
      let roc := pcur / pref - 1
      if 0 < roc then 2 else if roc < 0 then 1 else 0

/-- The raw ROC signal series (before the one-bar shift). -/
def rocRaw (prices : List ℚ) (w : ℕ) : List ℤ :=
  (List.range prices.length).map (rocRawAt prices w)

/-- `prices.diff()` clipped to gains: `delta.where(delta > 0, 0)`; the
`NaN` at position 0 compares false and becomes `0`. -/
def gainAt (prices : List ℚ) (i : ℕ) : ℚ :=
  if i = 0 then 0
  else
    let d := priceAt prices i - priceAt prices (i - 1)
    if 0 < d then d else 0

/-- `-delta.where(delta < 0, 0)`: losses as nonnegative magnitudes. -/
def lossAt (prices : List ℚ) (i : ℕ) : ℚ :=
  if i = 0 then 0
  else
    let d := priceAt prices i - priceAt prices (i - 1)
    if d < 0 then -d else 0

/-- `rolling(window=w, min_periods=1).mean()` at position `i`: the mean of
the last `min (i+1) w` values of `f`. -/
def rollingMeanMinp1 (f : ℕ → ℚ) (w i : ℕ) : ℚ :=
  let lo := i + 1 - w
  let cnt := i + 1 - lo
  windowSum f lo cnt / (cnt : ℚ)

/-- The rolling average gain of the RSI computation. -/
def avgGain (prices : List ℚ) (w i : ℕ) : ℚ :=
  rollingMeanMinp1 (gainAt prices) w i

/-- The rolling average loss of the RSI computation. -/
def avgLoss (prices : List ℚ) (w i : ℕ) : ℚ :=
  rollingMeanMinp1 (lossAt prices) w i

/-- The raw RSI signal at position `i`.  When the average loss is zero the
float quotient `rs = avg_gain / avg_loss` is `+inf` (average gain positive:
`rsi = 100 - 100/(1+rs) = 100 > 70`, sell) or `NaN` (average gain zero —
it is nonnegative by construction — no comparison triggers); both are
defined numeric limits, not errors. -/
def rsiRawAt (prices : List ℚ) (w i : ℕ) : ℤ :=
  let ag := avgGain prices w i
  let al := avgLoss prices w i
  if al = 0 then
    if 0 < ag then 1 else 0
  else
    let rs := ag / al
    let rsi := 100 - 100 / (1 + rs)
    if rsi < 30 then 2 else if 70 < rsi then 1 else 0

/-- The raw RSI signal series (before the one-bar shift). -/
def rsiRaw (prices : List ℚ) (w : ℕ) : List ℤ :=
  (List.range prices.length).map (rsiRawAt prices w)

/-- `signals.shift(periods=1, fill_value=0)`: insert Hold at position 0,
drop the last value (the series keeps its length). -/
def shift1 : List ℤ → List ℤ
  | [] => []
  | x :: xs => 0 :: (x :: xs).dropLast

/-- Error taxonomy of the indicator engine's validators. -/
inductive SigError
  | invalidMethod
  | invalidWindow
  | invalidNumStdDev
  | invalidWindowRelationship
deriving DecidableEq, Repr

/-- Embeds `_validate_input_window` (`window` must be an integer `> 1`;
the integrality check is subsumed by the type). -/
def validate_input_window (w : ℕ) : Except SigError Unit :=
  if w ≤ 1 then Except.error SigError.invalidWindow else Except.ok ()

/-- Embeds `_validate_input_num_std_dev` (`num_std_dev > 0`). -/
def validate_input_num_std_dev (k : ℚ) : Except SigError Unit :=
  if k ≤ 0 then Except.error SigError.invalidNumStdDev else Except.ok ()

/-- Embeds `_validate_window_relationships`. -/
def validate_window_relationships (short_window long_window signal_window : ℕ) :
    Except SigError Unit :=
  if long_window ≤ short_window then Except.error SigError.invalidWindowRelationship
  else if short_window < signal_window then Except.error SigError.invalidWindowRelationship
  else Except.ok ()

/-- Embeds `_validate_input_bollinger_signals`. -/
def validate_input_bollinger_signals (w : ℕ) (k : ℚ) : Except SigError Unit := do
  validate_input_window w
  validate_input_num_std_dev k

/-- Embeds `_validate_input_macd_signals`. -/
def validate_input_macd_signals (short_window long_window signal_window : ℕ) :
    Except SigError Unit := do
  validate_input_window short_window
  validate_input_window long_window
  validate_input_window signal_window
  validate_window_relationships short_window long_window signal_window

/-- Embeds `_bollinger_signals`. -/
def bollinger_signals (prices : List ℚ) (w : ℕ) (k : ℚ) :
    Except SigError (List ℤ) := do
  validate_input_bollinger_signals w k
  pure (shift1 (bollingerRaw prices w k))

/-- Embeds `_macd_signals`. -/
def macd_signals (prices : List ℚ) (short_window long_window signal_window : ℕ) :
    Except SigError (List ℤ) := do
  validate_input_macd_signals short_window long_window signal_window
  pure (shift1 (macdRaw prices short_window long_window signal_window))

/-- Embeds `_roc_signals`. -/
def roc_signals (prices : List ℚ) (w : ℕ) : Except SigError (List ℤ) := do
  validate_input_window w
  pure (shift1 (rocRaw prices w))

/-- Embeds `_rsi_signals`. -/
def rsi_signals (prices : List ℚ) (w : ℕ) : Except SigError (List ℤ) := do
  validate_input_window w
  pure (shift1 (rsiRaw prices w))

/-- The supported methods of `generate_signals`. -/
def supportedMethods : List String := ["bollinger", "macd", "roc", "rsi"]

/-- Embeds `_validate_input_method` (the `isinstance(method, str)` check is
subsumed by the type). -/
def validate_input_method (method : String) : Except SigError Unit :=
  if method ∈ supportedMethods then Except.ok ()
  else Except.error SigError.invalidMethod

/-- Embeds `generate_signals` (the `data["Close"].squeeze()` series is the
`prices` list; the keyword arguments are passed explicitly).  The source
uses four non-exclusive `if` statements over a `method` already vetted by
`_validate_input_method`, which is equivalent to this chain. -/
def generate_signals (prices : List ℚ) (method : String) (window : ℕ)
    (num_std_dev : ℚ) (short_window long_window signal_window : ℕ) :
    Except SigError (List ℤ) := do
  validate_input_method method
  if method = "bollinger" then bollinger_signals prices window num_std_dev
  else if method = "macd" then
    macd_signals prices short_window long_window signal_window
  else if method = "roc" then roc_signals prices window
  else rsi_signals prices window

/-- The raw (pre-shift) signal series of each supported method, used to
state the shift-by-one property. -/
def rawSignalsOf (prices : List ℚ) (method : String) (window : ℕ)
    (num_std_dev : ℚ) (short_window long_window signal_window : ℕ) : List ℤ :=
  if method = "bollinger" then bollingerRaw prices window num_std_dev
  else if method = "macd" then macdRaw prices short_window long_window signal_window
  else if method = "roc" then rocRaw prices window
  else rsiRaw prices window

/-! ### Helper lemmas about the trade executor -/

theorem execute_buy_nonneg (cash price : ℚ) (shares : ℤ) (trade_vol tac : ℚ)
    (cash2 : ℚ) (shares2 : ℤ) (hc : 0 ≤ cash) (hs : 0 ≤ shares)
    (h : execute_buy cash price shares trade_vol tac = some (cash2, shares2)) :
    0 ≤ cash2 ∧ 0 ≤ shares2 := by
  simp only [execute_buy] at h
  split at h
  · exact absurd h (by simp)
  · split at h
    · obtain ⟨rfl, rfl⟩ :=
        (Prod.mk.injEq .. ▸ Option.some.injEq .. ▸ h : cash = cash2 ∧ shares = shares2)
      exact ⟨hc, hs⟩
    · rename_i haff
      rw [not_not, is_buy_trade_affordable, Bool.and_eq_true,
        decide_eq_true_eq, decide_eq_true_eq] at haff
      obtain ⟨h1, h2⟩ := haff
      obtain ⟨rfl, rfl⟩ :=
        (Prod.mk.injEq .. ▸ Option.some.injEq .. ▸ h :
          cash - _ = cash2 ∧ shares + _ = shares2)
      exact ⟨by linarith, by positivity⟩

theorem execute_sell_nonneg (cash price : ℚ) (shares : ℤ) (trade_vol tac : ℚ)
    (cash2 : ℚ) (shares2 : ℤ) (hc : 0 ≤ cash) (hs : 0 ≤ shares)
    (hp : 0 < price) (htv : 0 ≤ trade_vol) (htac : tac ≤ 1)
    (h : execute_sell cash price shares trade_vol tac = some (cash2, shares2)) :
    0 ≤ cash2 ∧ 0 ≤ shares2 := by
  simp only [execute_sell] at h
  split at h
  · exact absurd h (by simp)
  · rename_i hden
    split at h
    · obtain ⟨rfl, rfl⟩ :=
        (Prod.mk.injEq .. ▸ Option.some.injEq .. ▸ h : cash = cash2 ∧ shares = shares2)
      exact ⟨hc, hs⟩
    · have hden2 : 0 < price * (1 - tac) := by
        rcases lt_or_eq_of_le (by linarith : (0:ℚ) ≤ 1 - tac) with h1 | h1
        · positivity
        · exact absurd (by rw [← h1, mul_zero]) hden
      have hfl : (0:ℤ) ≤ ⌊trade_vol / (price * (1 - tac))⌋ :=
        Int.floor_nonneg.mpr (div_nonneg htv hden2.le)
      have hmin0 : (0:ℤ) ≤ min ⌊trade_vol / (price * (1 - tac))⌋ shares :=
        le_min hfl hs
      have hmins : min ⌊trade_vol / (price * (1 - tac))⌋ shares ≤ shares :=
        min_le_right _ _
      obtain ⟨rfl, rfl⟩ :=
        (Prod.mk.injEq .. ▸ Option.some.injEq .. ▸ h :
          cash + _ = cash2 ∧ shares - _ = shares2)
      constructor
      · have h1 : (0:ℚ) ≤ ((min ⌊trade_vol / (price * (1 - tac))⌋ shares : ℤ) : ℚ) := by
          exact_mod_cast hmin0
        have h2 : (0:ℚ) ≤
            ((min ⌊trade_vol / (price * (1 - tac))⌋ shares : ℤ) : ℚ) *
              (price * (1 - tac)) :=
          mul_nonneg h1 hden2.le
        rw [mul_assoc]
        linarith
      · omega

theorem execute_trade_nonneg (signal : ℤ) (cash price : ℚ) (shares : ℤ)
    (trade_vol tac : ℚ) (cash2 : ℚ) (shares2 : ℤ)
    (hc : 0 ≤ cash) (hs : 0 ≤ shares) (hp : 0 < price) (htv : 0 ≤ trade_vol)
    (htac : tac ≤ 1)
    (h : execute_trade signal cash price shares trade_vol tac = some (cash2, shares2)) :
    0 ≤ cash2 ∧ 0 ≤ shares2 := by
  simp only [execute_trade] at h
  split at h
  · exact execute_buy_nonneg _ _ _ _ _ _ _ hc hs h
  · split at h
    · exact execute_sell_nonneg _ _ _ _ _ _ _ hc hs hp htv htac h
    · obtain ⟨rfl, rfl⟩ :=
        (Prod.mk.injEq .. ▸ Option.some.injEq .. ▸ h : cash = cash2 ∧ shares = shares2)
      exact ⟨hc, hs⟩

/-! ### Helper lemmas about the simulation loop -/

theorem simAux_mem_identity (tp tac : ℚ) (pairs : List (ℚ × ℤ)) :
    ∀ (cash : ℚ) (shares : ℤ) (assets : ℚ) (rows : List Row),
      simAux tp tac cash shares assets pairs = some rows →
      ∀ r ∈ rows, r.holdings = (r.shares : ℚ) * r.price ∧
        r.assets = r.cash + (r.shares : ℚ) * r.price := by
  induction pairs with
  | nil =>
    intro cash shares assets rows h r hr
    simp only [simAux, Option.some.injEq] at h
    subst h
    exact absurd hr (List.not_mem_nil r)
  | cons head rest ih =>
    intro cash shares assets rows h r hr
    obtain ⟨p, sg⟩ := head
    simp only [simAux] at h
    cases hE : execute_trade sg cash p shares (tp * assets) tac with
    | none => rw [hE] at h; exact absurd h (by simp)
    | some cs =>
      obtain ⟨cash2, shares2⟩ := cs
      rw [hE] at h
      dsimp only at h
      cases hS : simAux tp tac cash2 shares2 (update_port cash2 shares2 p).1 rest with
      | none => rw [hS] at h; exact absurd h (by simp)
      | some rows2 =>
        rw [hS] at h
        simp only [Option.some.injEq] at h
        subst h
        rcases List.mem_cons.mp hr with hr0 | hr2
        · subst hr0
          exact ⟨rfl, rfl⟩
        · exact ih cash2 shares2 _ rows2 hS r hr2

theorem simAux_mem_nonneg (tp tac : ℚ) (htp : 0 < tp) (htac : tac ≤ 1)
    (pairs : List (ℚ × ℤ)) :
    ∀ (cash : ℚ) (shares : ℤ) (assets : ℚ) (rows : List Row),
      (∀ pr ∈ pairs, 0 < pr.1) → 0 ≤ cash → 0 ≤ shares → 0 ≤ assets →
      simAux tp tac cash shares assets pairs = some rows →
      ∀ r ∈ rows, 0 ≤ r.cash ∧ 0 ≤ r.shares := by
  induction pairs with
  | nil =>
    intro cash shares assets rows _ _ _ _ h r hr
    simp only [simAux, Option.some.injEq] at h
    subst h
    exact absurd hr (List.not_mem_nil r)
  | cons head rest ih =>
    intro cash shares assets rows hpos hc hs ha h r hr
    obtain ⟨p, sg⟩ := head
    have hp : 0 < p := hpos (p, sg) (List.mem_cons_self _ _)
    simp only [simAux] at h
    cases hE : execute_trade sg cash p shares (tp * assets) tac with
    | none => rw [hE] at h; exact absurd h (by simp)
    | some cs =>
      obtain ⟨cash2, shares2⟩ := cs
      rw [hE] at h
      obtain ⟨hc2, hs2⟩ :=
        execute_trade_nonneg sg cash p shares (tp * assets) tac cash2 shares2
          hc hs hp (mul_nonneg htp.le ha) htac hE
      dsimp only at h
      cases hS : simAux tp tac cash2 shares2 (update_port cash2 shares2 p).1 rest with
      | none => rw [hS] at h; exact absurd h (by simp)
      | some rows2 =>
        rw [hS] at h
        simp only [Option.some.injEq] at h
        subst h
        rcases List.mem_cons.mp hr with hr0 | hr2
        · subst hr0
          exact ⟨hc2, hs2⟩
        · have ha2 : 0 ≤ (update_port cash2 shares2 p).1 := by
            have : (0:ℚ) ≤ (shares2 : ℚ) * p :=
              mul_nonneg (by exact_mod_cast hs2) hp.le
            simp only [update_port]
            linarith
          exact ih cash2 shares2 _ rows2
            (fun pr hpr => hpos pr (List.mem_cons_of_mem _ hpr)) hc2 hs2 ha2 hS r hr2

/-- Structural description of a successful loop run: row count, alignment
of `price`/`signal` with the input bars, and the exact call made to the
trade executor at every bar (volume `tp * assets` where `assets` is the
loop state entering the bar). -/
theorem simAux_step_spec (tp tac : ℚ) (pairs : List (ℚ × ℤ)) :
    ∀ (cash : ℚ) (shares : ℤ) (assets : ℚ) (rows : List Row),
      simAux tp tac cash shares assets pairs = some rows →
      rows.length = pairs.length ∧
      (∀ i, i < rows.length →
        (rows.getD i default).price = (pairs.getD i default).1 ∧
        (rows.getD i default).signal = (pairs.getD i default).2) ∧
      (0 < rows.length →
        execute_trade (pairs.getD 0 default).2 cash (pairs.getD 0 default).1 shares
          (tp * assets) tac =
          some ((rows.getD 0 default).cash, (rows.getD 0 default).shares)) ∧
      (∀ i, i + 1 < rows.length →
        execute_trade (pairs.getD (i+1) default).2 (rows.getD i default).cash
          (pairs.getD (i+1) default).1 (rows.getD i default).shares
          (tp * (rows.getD i default).assets) tac =
          some ((rows.getD (i+1) default).cash, (rows.getD (i+1) default).shares)) := by
  induction pairs with
  | nil =>
    intro cash shares assets rows h
    simp only [simAux, Option.some.injEq] at h
    subst h
    refine ⟨rfl, ?_, ?_, ?_⟩
    · intro i hi; simp at hi
    · intro h0; simp at h0
    · intro i hi; simp at hi
  | cons head rest ih =>
    intro cash shares assets rows h
    obtain ⟨p, sg⟩ := head
    simp only [simAux] at h
    cases hE : execute_trade sg cash p shares (tp * assets) tac with
    | none => rw [hE] at h; exact absurd h (by simp)
    | some cs =>
      obtain ⟨cash2, shares2⟩ := cs
      rw [hE] at h
      dsimp only at h
      cases hS : simAux tp tac cash2 shares2 (update_port cash2 shares2 p).1 rest with
      | none => rw [hS] at h; exact absurd h (by simp)
      | some rows2 =>
        rw [hS] at h
        simp only [Option.some.injEq] at h
        subst h
        obtain ⟨ihlen, ihps, ihstep0, ihstep⟩ := ih cash2 shares2 _ rows2 hS
        refine ⟨by simp [ihlen], ?_, ?_, ?_⟩
        · intro i hi
          cases i with
          | zero => exact ⟨rfl, rfl⟩
          | succ j =>
            simp only [List.getD_cons_succ]
            exact ihps j (by simpa using Nat.lt_of_succ_lt_succ hi)
        · intro _
          simpa using hE
        · intro i hi
          cases i with
          | zero =>
            simp only [List.getD_cons_succ, List.getD_cons_zero]
            exact ihstep0 (by simpa using Nat.lt_of_succ_lt_succ hi)
          | succ j =>
            simp only [List.getD_cons_succ]
            exact ihstep j (by simpa using Nat.lt_of_succ_lt_succ hi)

/-- Inversion of a successful `backtest_signals` run: validation passed and
the loop produced the rows. -/
theorem backtest_signals_ok (prices : List ℚ) (signals : List ℤ)
    (initial_cash tac trade_pct : ℚ) (rows : List Row)
    (h : backtest_signals prices signals initial_cash tac trade_pct =
      Except.ok rows) :
    validate_backtest_signals_input prices signals initial_cash tac trade_pct = true ∧
    simAux trade_pct tac initial_cash 0 (initial_cash + 0) (prices.zip signals) =
      some rows := by
  by_cases hv :
      validate_backtest_signals_input prices signals initial_cash tac trade_pct = true
  · refine ⟨hv, ?_⟩
    rw [backtest_signals, if_pos hv] at h
    cases hS : simAux trade_pct tac initial_cash 0 (initial_cash + 0)
        (prices.zip signals) with
    | none => rw [hS] at h; exact absurd h (by simp)
    | some rows2 => rw [hS] at h; simp only [Except.ok.injEq] at h; rw [h]
  · rw [backtest_signals, if_neg hv] at h
    exact absurd h (by simp)

/-- Unfolding of the input validator into its arithmetic content. -/
theorem validate_backtest_signals_input_iff (prices : List ℚ)
    (signals : List ℤ) (initial_cash tac trade_pct : ℚ) :
    validate_backtest_signals_input prices signals initial_cash tac trade_pct = true ↔
      ((∀ s ∈ signals, s = 0 ∨ s = 1 ∨ s = 2) ∧ signals.length = prices.length) ∧
        0 < initial_cash ∧ (0 ≤ tac ∧ tac ≤ 1) ∧ (0 < trade_pct ∧ trade_pct ≤ 1) := by
  rw [validate_backtest_signals_input, validate_signals_vals,
    validate_initial_cash, validate_tac, validate_trade_pct]
  simp only [Bool.and_eq_true, decide_eq_true_eq, List.all_eq_true]
  tauto

/-- A one-bar hold-only run, used to exhibit satisfiable hypotheses. -/
theorem run_single_ok :
    backtest_signals [10] [0] 100 0 1 =
      Except.ok [⟨10, 0, 0, 0, 100, 100⟩] := by
  norm_num [backtest_signals, validate_backtest_signals_input,
    validate_signals_vals, validate_initial_cash, validate_tac,
    validate_trade_pct, simAux, execute_trade, update_port, List.zip,
    List.zipWith]

/-! ### Helper lemmas about the indicator engine -/

theorem shift1_length (xs : List ℤ) : (shift1 xs).length = xs.length := by
  cases xs with
  | nil => rfl
  | cons x t => simp [shift1]

theorem shift1_getD_zero (xs : List ℤ) : (shift1 xs).getD 0 0 = 0 := by
  cases xs with
  | nil => rfl
  | cons x t => rfl

theorem shift1_getD_succ (xs : List ℤ) (i : ℕ) (h : i + 1 < xs.length) :
    (shift1 xs).getD (i + 1) 0 = xs.getD i 0 := by
  cases xs with
  | nil => simp at h
  | cons x t =>
    have hd : i < ((x :: t).dropLast).length := by
      simp only [List.length_dropLast, List.length_cons, Nat.add_sub_cancel]
      simpa using Nat.lt_of_succ_lt_succ h
    have hi : i < (x :: t).length := Nat.lt_of_succ_lt h
    rw [shift1, List.getD_cons_succ, List.getD_eq_getElem _ _ hd,
      List.getD_eq_getElem _ _ hi]
    exact List.getElem_dropLast _ _ hd

theorem emaFrom_length (a : ℚ) (xs : List ℚ) :
    ∀ y, (emaFrom a y xs).length = xs.length := by
  induction xs with
  | nil => intro y; rfl
  | cons x t ih => intro y; simp [emaFrom, ih]

theorem ewmMean_length (span : ℕ) (xs : List ℚ) :
    (ewmMean span xs).length = xs.length := by
  cases xs with
  | nil => rfl
  | cons x t => simp [ewmMean, emaFrom_length]

theorem bollingerRaw_length (prices : List ℚ) (w : ℕ) (k : ℚ) :
    (bollingerRaw prices w k).length = prices.length := by
  simp [bollingerRaw]

theorem macdRaw_length (prices : List ℚ) (sw lw gw : ℕ) :
    (macdRaw prices sw lw gw).length = prices.length := by
  rw [macdRaw]
  simp [List.length_zipWith, ewmMean_length, emaFrom_length]

theorem rocRaw_length (prices : List ℚ) (w : ℕ) :
    (rocRaw prices w).length = prices.length := by
  simp [rocRaw]

theorem rsiRaw_length (prices : List ℚ) (w : ℕ) :
    (rsiRaw prices w).length = prices.length := by
  simp [rsiRaw]

theorem rawSignalsOf_length (prices : List ℚ) (method : String) (window : ℕ)
    (num_std_dev : ℚ) (short_window long_window signal_window : ℕ) :
    (rawSignalsOf prices method window num_std_dev short_window long_window
      signal_window).length = prices.length := by
  rw [rawSignalsOf]
  split
  · exact bollingerRaw_length _ _ _
  · split
    · exact macdRaw_length _ _ _ _
    · split
      · exact rocRaw_length _ _
      · exact rsiRaw_length _ _

theorem bollinger_signals_ok (prices : List ℚ) (w : ℕ) (k : ℚ) (out : List ℤ)
    (h : bollinger_signals prices w k = Except.ok out) :
    out = shift1 (bollingerRaw prices w k) := by
  rw [bollinger_signals, validate_input_bollinger_signals,
    validate_input_window, validate_input_num_std_dev] at h
  by_cases hw : w ≤ 1
  · rw [if_pos hw] at h
    exact absurd h (by simp [Bind.bind, Except.bind])
  · rw [if_neg hw] at h
    by_cases hk : k ≤ 0
    · rw [if_pos hk] at h
      exact absurd h (by simp [Bind.bind, Except.bind])
    · rw [if_neg hk] at h
      simp only [Bind.bind, Except.bind, pure, Except.pure, Except.ok.injEq] at h
      exact h.symm

theorem macd_signals_ok (prices : List ℚ) (sw lw gw : ℕ) (out : List ℤ)
    (h : macd_signals prices sw lw gw = Except.ok out) :
    out = shift1 (macdRaw prices sw lw gw) := by
  rw [macd_signals, validate_input_macd_signals, validate_window_relationships] at h
  rw [validate_input_window, validate_input_window, validate_input_window] at h
  by_cases h1 : sw ≤ 1
  · rw [if_pos h1] at h
    exact absurd h (by simp [Bind.bind, Except.bind])
  · rw [if_neg h1] at h
    by_cases h2 : lw ≤ 1
    · rw [if_pos h2] at h
      exact absurd h (by simp [Bind.bind, Except.bind])
    · rw [if_neg h2] at h
      by_cases h3 : gw ≤ 1
      · rw [if_pos h3] at h
        exact absurd h (by simp [Bind.bind, Except.bind])
      · rw [if_neg h3] at h
        by_cases h4 : lw ≤ sw
        · rw [if_pos h4] at h
          exact absurd h (by simp [Bind.bind, Except.bind])
        · rw [if_neg h4] at h
          by_cases h5 : sw < gw
          · rw [if_pos h5] at h
            exact absurd h (by simp [Bind.bind, Except.bind])
          · rw [if_neg h5] at h
            simp only [Bind.bind, Except.bind, pure, Except.pure,
              Except.ok.injEq] at h
            exact h.symm

theorem roc_signals_ok (prices : List ℚ) (w : ℕ) (out : List ℤ)
    (h : roc_signals prices w = Except.ok out) :
    out = shift1 (rocRaw prices w) := by
  rw [roc_signals, validate_input_window] at h
  by_cases hw : w ≤ 1
  · rw [if_pos hw] at h
    exact absurd h (by simp [Bind.bind, Except.bind])
  · rw [if_neg hw] at h
    simp only [Bind.bind, Except.bind, pure, Except.pure, Except.ok.injEq] at h
    exact h.symm

theorem rsi_signals_ok (prices : List ℚ) (w : ℕ) (out : List ℤ)
    (h : rsi_signals prices w = Except.ok out) :
    out = shift1 (rsiRaw prices w) := by
  rw [rsi_signals, validate_input_window] at h
  by_cases hw : w ≤ 1
  · rw [if_pos hw] at h
    exact absurd h (by simp [Bind.bind, Except.bind])
  · rw [if_neg hw] at h
    simp only [Bind.bind, Except.bind, pure, Except.pure, Except.ok.injEq] at h
    exact h.symm

/-- A successful `generate_signals` call is the shift of the corresponding
raw series (the method string must be one of the four supported ones, and
the dispatch of `generate_signals` and of `rawSignalsOf` agree). -/
theorem generate_signals_ok (prices : List ℚ) (method : String) (window : ℕ)
    (num_std_dev : ℚ) (short_window long_window signal_window : ℕ)
    (out : List ℤ)
    (h : generate_signals prices method window num_std_dev short_window
      long_window signal_window = Except.ok out) :
    out = shift1 (rawSignalsOf prices method window num_std_dev short_window
      long_window signal_window) := by
  rw [generate_signals, validate_input_method] at h
  by_cases hm : method ∈ supportedMethods
  · rw [if_pos hm] at h
    simp only [Bind.bind, Except.bind] at h
    rw [rawSignalsOf]
    by_cases hb : method = "bollinger"
    · rw [if_pos hb] at h ⊢
      exact bollinger_signals_ok _ _ _ _ h
    · rw [if_neg hb] at h ⊢
      by_cases hmac : method = "macd"
      · rw [if_pos hmac] at h ⊢
        exact macd_signals_ok _ _ _ _ _ h
      · rw [if_neg hmac] at h ⊢
        by_cases hr : method = "roc"
        · rw [if_pos hr] at h ⊢
          exact roc_signals_ok _ _ _ h
        · rw [if_neg hr] at h ⊢
          exact rsi_signals_ok _ _ _ h
  · rw [if_neg hm] at h
    exact absurd h (by simp [Bind.bind, Except.bind])

/-! ### Claim theorems: portfolio simulator -/

/-- C1: every row of the portfolio table returned by a successful
`backtest_signals` run satisfies `assets = cash + shares · price` exactly,
where `cash` and `shares` are the post-trade state of that bar. -/
theorem backtest_assets_identity (prices : List ℚ) (signals : List ℤ)
    (initial_cash tac trade_pct : ℚ) (rows : List Row) (r : Row)
    (hok : backtest_signals prices signals initial_cash tac trade_pct =
      Except.ok rows)
    (hr : r ∈ rows) :
    r.assets = r.cash + (r.shares : ℚ) * r.price := by
  obtain ⟨-, hS⟩ := backtest_signals_ok _ _ _ _ _ _ hok
  exact (simAux_mem_identity _ _ _ _ _ _ _ hS r hr).2

theorem backtest_assets_identity_witness :
    (⟨10, 0, 0, 0, 100, 100⟩ : Row).assets =
      (⟨10, 0, 0, 0, 100, 100⟩ : Row).cash +
        (((⟨10, 0, 0, 0, 100, 100⟩ : Row).shares : ℚ)) *
          (⟨10, 0, 0, 0, 100, 100⟩ : Row).price :=
  backtest_assets_identity [10] [0] 100 0 1 [⟨10, 0, 0, 0, 100, 100⟩]
    ⟨10, 0, 0, 0, 100, 100⟩ run_single_ok (by simp)

/-- C2: on a successful run with valid parameters and positive prices,
every bar's post-trade state has a nonnegative (integer) share count and
nonnegative cash. -/
theorem backtest_state_nonneg (prices : List ℚ) (signals : List ℤ)
    (initial_cash tac trade_pct : ℚ) (rows : List Row) (r : Row)
    (hic : 0 < initial_cash) (htac0 : 0 ≤ tac) (htac1 : tac ≤ 1)
    (htp0 : 0 < trade_pct) (htp1 : trade_pct ≤ 1)
    (hpos : ∀ p ∈ prices, 0 < p)
    (hok : backtest_signals prices signals initial_cash tac trade_pct =
      Except.ok rows)
    (hr : r ∈ rows) :
    0 ≤ r.cash ∧ 0 ≤ r.shares := by
  obtain ⟨-, hS⟩ := backtest_signals_ok _ _ _ _ _ _ hok
  refine simAux_mem_nonneg trade_pct tac htp0 htac1 (prices.zip signals)
    initial_cash 0 (initial_cash + 0) rows ?_ hic.le le_rfl (by linarith) hS r hr
  intro pr hpr
  exact hpos pr.1 (List.of_mem_zip hpr).1

theorem backtest_state_nonneg_witness :
    0 ≤ (⟨10, 0, 0, 0, 100, 100⟩ : Row).cash ∧
      0 ≤ (⟨10, 0, 0, 0, 100, 100⟩ : Row).shares :=
  backtest_state_nonneg [10] [0] 100 0 1 [⟨10, 0, 0, 0, 100, 100⟩]
    ⟨10, 0, 0, 0, 100, 100⟩ (by norm_num) (by norm_num) (by norm_num)
    (by norm_num) (by norm_num) (by norm_num) run_single_ok (by simp)

/-- C3: on a successful run, the trade executed at bar `i` uses the trade
volume `trade_pct · assets_{i-1}`, where `assets_{i-1}` is
`cash_{i-1} + shares_{i-1} · price_{i-1}` from the previous bar's row
(`initial_cash` for bar 0), together with the previous bar's post-trade
cash and shares and bar `i`'s signal and price. -/
theorem backtest_trade_volume (prices : List ℚ) (signals : List ℤ)
    (initial_cash tac trade_pct : ℚ) (rows : List Row) (i : ℕ)
    (hok : backtest_signals prices signals initial_cash tac trade_pct =
      Except.ok rows)
    (hi : i < rows.length) :
    execute_trade ((prices.zip signals).getD i default).2
      (if i = 0 then initial_cash else (rows.getD (i - 1) default).cash)
      ((prices.zip signals).getD i default).1
      (if i = 0 then 0 else (rows.getD (i - 1) default).shares)
      (trade_pct *
        (if i = 0 then initial_cash
         else (rows.getD (i - 1) default).cash +
           ((rows.getD (i - 1) default).shares : ℚ) *
             (rows.getD (i - 1) default).price))
      tac =
      some ((rows.getD i default).cash, (rows.getD i default).shares) := by
  obtain ⟨-, hS⟩ := backtest_signals_ok _ _ _ _ _ _ hok
  obtain ⟨hlen, hps, hstep0, hstep⟩ := simAux_step_spec _ _ _ _ _ _ _ hS
  cases i with
  | zero =>
    simp only [if_pos rfl]
    have h0 := hstep0 hi
    rwa [add_zero] at h0
  | succ j =>
    have hj : j < rows.length := Nat.lt_of_succ_lt hi
    have hmem : rows.getD j default ∈ rows := by
      rw [List.getD_eq_getElem rows default hj]
      exact List.getElem_mem hj
    have hassets := (simAux_mem_identity _ _ _ _ _ _ _ hS _ hmem).2
    simp only [Nat.succ_ne_zero, if_false, Nat.add_sub_cancel]
    rw [← hassets]
    exact hstep j hi

theorem backtest_trade_volume_witness :
    execute_trade 0 100 10 0 (1 * 100) 0 = some (100, 0) :=
  backtest_trade_volume [10] [0] 100 0 1 [⟨10, 0, 0, 0, 100, 100⟩] 0
    run_single_ok (by simp)

/-- C4: the buy-then-sell scenario: prices `[10,5,10,8,10]`, signals
`[0,2,0,0,1]`, `initial_cash = 100`, `cost_rate = 0`, `trade_pct = 1`:
bar 1 buys `⌊100/5⌋ = 20` shares (cash 0), bar 4 sells
`min ⌊160/10⌋ 20 = 16` shares leaving 4 shares and cash 160, with final
assets 200. -/
theorem backtest_scenario_buy_sell :
    backtest_signals [10, 5, 10, 8, 10] [0, 2, 0, 0, 1] 100 0 1 =
      Except.ok [⟨10, 0, 0, 0, 100, 100⟩, ⟨5, 2, 20, 100, 0, 100⟩,
        ⟨10, 0, 20, 200, 0, 200⟩, ⟨8, 0, 20, 160, 0, 160⟩,
        ⟨10, 1, 4, 40, 160, 200⟩] := by
  norm_num [backtest_signals, validate_backtest_signals_input,
    validate_signals_vals, validate_initial_cash, validate_tac,
    validate_trade_pct, simAux, execute_trade, execute_buy, execute_sell,
    is_buy_trade_affordable, is_sell_trade_affordable, update_port,
    List.zip, List.zipWith]

/-- C5 (counterexample): at `cost_rate = 1` — accepted by `_validate_tac` —
a Sell signal with `shares = 0 < 1` does not return the state unchanged:
the source computes `trade_vol / (price * (1 - tac))` before the
affordability check and raises `ZeroDivisionError` (modelled as `none`). -/
theorem trade_noop_counterexample :
    validate_tac 1 = true ∧ (0 : ℤ) < 1 ∧
      execute_trade 1 100 1 0 100 1 = none := by
  refine ⟨by norm_num [validate_tac], by norm_num, ?_⟩
  norm_num [execute_trade, execute_sell]

/-- C5 (amended): an underfunded Buy (`⌊trade_vol/(price·(1+tac))⌋ < 1` or
`cash < buy_shares·price·(1+tac)`) whose divisor `price·(1+cost_rate)` is
nonzero, an undersized Sell (`shares < 1`) whose divisor
`price·(1-cost_rate)` is nonzero — the proviso each branch needs, stated
per branch; for Sell it excludes `cost_rate = 1` at nonzero price — and
any non-Buy non-Sell signal all return `(cash, shares)` unchanged, raising
no error. -/
theorem trade_noop_cases (signal : ℤ) (cash price : ℚ) (shares : ℤ)
    (trade_vol tac : ℚ)
    (hcase :
      (signal = 2 ∧ price * (1 + tac) ≠ 0 ∧
        (⌊trade_vol / (price * (1 + tac))⌋ < 1 ∨
          cash < (⌊trade_vol / (price * (1 + tac))⌋ : ℚ) * price * (1 + tac))) ∨
      (signal = 1 ∧ price * (1 - tac) ≠ 0 ∧ shares < 1) ∨
      (signal ≠ 2 ∧ signal ≠ 1)) :
    execute_trade signal cash price shares trade_vol tac =
      some (cash, shares) := by
  rcases hcase with ⟨rfl, hbden, hbuy⟩ | ⟨rfl, hsden, hsell⟩ | ⟨h2, h1⟩
  · have hcond : ¬ is_buy_trade_affordable ⌊trade_vol / (price * (1 + tac))⌋
        ((⌊trade_vol / (price * (1 + tac))⌋ : ℚ) * price * (1 + tac)) cash = true := by
      rw [is_buy_trade_affordable]
      simp only [Bool.and_eq_true, decide_eq_true_eq, not_and, not_le]
      intro h1
      rcases hbuy with h | h
      · omega
      · exact h
    simp only [execute_trade, if_pos rfl, execute_buy, if_neg hbden, if_pos hcond,
      if_true]
  · have hne : ¬((1:ℤ) = 2) := by norm_num
    have hcond : ¬ is_sell_trade_affordable shares = true := by
      rw [is_sell_trade_affordable]
      simp only [decide_eq_true_eq, not_le]
      omega
    simp only [execute_trade, if_neg hne, if_pos rfl, execute_sell,
      if_neg hsden, if_pos hcond, if_true]
  · simp only [execute_trade, if_neg h2, if_neg h1]

theorem trade_noop_cases_witness :
    execute_trade 2 100 10 0 5 1 = some (100, 0) ∧
    execute_trade 0 5 1 3 2 0 = some (5, 3) :=
  ⟨trade_noop_cases 2 100 10 0 5 1
      (Or.inl ⟨rfl, by norm_num,
        Or.inl (by norm_num [Int.floor_eq_zero_iff, Set.mem_Ico])⟩),
    trade_noop_cases 0 5 1 3 2 0 (Or.inr (Or.inr (by norm_num)))⟩

/-- C7: `backtest_signals` rejects — returning the validation error, with
no simulation step executed — every input with mismatched lengths, a
signal outside `{0,1,2}`, non-positive `initial_cash`, `cost_rate` outside
`[0,1]` or `trade_pct` outside `(0,1]` (non-numeric prices are excluded by
the type of the embedding). -/
theorem backtest_rejects_invalid (prices : List ℚ) (signals : List ℤ)
    (initial_cash tac trade_pct : ℚ)
    (hbad : signals.length ≠ prices.length ∨
      (∃ s ∈ signals, ¬(s = 0 ∨ s = 1 ∨ s = 2)) ∨
      initial_cash ≤ 0 ∨ tac < 0 ∨ 1 < tac ∨ trade_pct ≤ 0 ∨ 1 < trade_pct) :
    backtest_signals prices signals initial_cash tac trade_pct =
      Except.error BtError.invalidInput := by
  rw [backtest_signals, if_neg]
  intro hv
  rw [validate_backtest_signals_input_iff] at hv
  obtain ⟨⟨hsig, hlen⟩, hic, ⟨htac0, htac1⟩, htp0, htp1⟩ := hv
  rcases hbad with h | h | h | h | h | h | h
  · exact h hlen
  · obtain ⟨s, hs, hval⟩ := h
    exact hval (hsig s hs)
  · linarith
  · linarith
  · linarith
  · linarith
  · linarith

theorem backtest_rejects_invalid_witness :
    backtest_signals [10] [3] 100 0 1 = Except.error BtError.invalidInput :=
  backtest_rejects_invalid [10] [3] 100 0 1
    (Or.inr (Or.inl ⟨3, by simp, by norm_num⟩))

/-- C10: validation accepts `cost_rate = 1` (`_validate_tac` checks only
`0 ≤ tac ≤ 1`), yet on a Sell signal the executor computes
`trade_vol / (price * (1 - tac))` whose divisor is `price · 0 = 0`, so the
sell branch fails with a `ZeroDivisionError` (modelled as `none`) instead
of producing a trade or a no-op. -/
theorem sell_tac_one_divzero (cash price : ℚ) (shares : ℤ) (trade_vol : ℚ)
    (hs : 1 ≤ shares) :
    validate_tac 1 = true ∧
      execute_trade 1 cash price shares trade_vol 1 = none := by
  refine ⟨by norm_num [validate_tac], ?_⟩
  norm_num [execute_trade, execute_sell]

theorem sell_tac_one_divzero_witness :
    validate_tac 1 = true ∧ execute_trade 1 50 7 5 35 1 = none :=
  sell_tac_one_divzero 50 7 5 35 (by norm_num)

/-! ### Claim theorems: indicator engine -/

/-- C6: for every supported method, a successful `generate_signals` call
returns the raw indicator series shifted right by one position: the output
has the length of the price series, position 0 holds `0` (Hold), and
position `i + 1` holds the raw signal computed at position `i` (so the last
raw signal is discarded and the signal acted on at bar `i` depends only on
data up to bar `i - 1`). -/
theorem generate_signals_shift_by_one (prices : List ℚ) (method : String)
    (window : ℕ) (num_std_dev : ℚ)
    (short_window long_window signal_window : ℕ) (out : List ℤ) (i : ℕ)
    (hok : generate_signals prices method window num_std_dev short_window
      long_window signal_window = Except.ok out)
    (hi : i + 1 < prices.length) :
    out.length = prices.length ∧
    (rawSignalsOf prices method window num_std_dev short_window long_window
      signal_window).length = prices.length ∧
    out.getD 0 0 = 0 ∧
    out.getD (i + 1) 0 =
      (rawSignalsOf prices method window num_std_dev short_window long_window
        signal_window).getD i 0 := by
  have hout := generate_signals_ok _ _ _ _ _ _ _ _ hok
  have hraw := rawSignalsOf_length prices method window num_std_dev
    short_window long_window signal_window
  subst hout
  refine ⟨by rw [shift1_length, hraw], hraw, shift1_getD_zero _, ?_⟩
  exact shift1_getD_succ _ i (by rw [hraw]; exact hi)

theorem generate_signals_shift_by_one_witness :
    ([0, 0, 2] : List ℤ).length = ([1, 2, 3] : List ℚ).length ∧
    (rawSignalsOf [1, 2, 3] "roc" 2 2 2 3 2).length =
      ([1, 2, 3] : List ℚ).length ∧
    ([0, 0, 2] : List ℤ).getD 0 0 = 0 ∧
    ([0, 0, 2] : List ℤ).getD (0 + 1) 0 =
      (rawSignalsOf [1, 2, 3] "roc" 2 2 2 3 2).getD 0 0 :=
  generate_signals_shift_by_one [1, 2, 3] "roc" 2 2 2 3 2 [0, 0, 2] 0
    (by
      norm_num [generate_signals, validate_input_method, supportedMethods,
        roc_signals, validate_input_window, rocRaw, rocRawAt, priceAt, shift1,
        Bind.bind, Except.bind, pure, Except.pure, List.range_succ]
      rw [if_neg (by decide : ¬(("roc" : String) = "bollinger")),
        if_neg (by decide : ¬(("roc" : String) = "macd"))])
    (by norm_num)

theorem priceAt_replicate (n : ℕ) (c : ℚ) (i : ℕ) (h : i < n) :
    priceAt (List.replicate n c) i = c := by
  rw [priceAt, List.getD_eq_getElem _ _ (by simpa using h),
    List.getElem_replicate]

theorem gainAt_replicate (n : ℕ) (c : ℚ) (i : ℕ) (h : i < n) :
    gainAt (List.replicate n c) i = 0 := by
  rw [gainAt]
  split
  · rfl
  · rename_i h0
    rw [priceAt_replicate n c i h, priceAt_replicate n c (i - 1) (by omega)]
    norm_num

theorem lossAt_replicate (n : ℕ) (c : ℚ) (i : ℕ) (h : i < n) :
    lossAt (List.replicate n c) i = 0 := by
  rw [lossAt]
  split
  · rfl
  · rename_i h0
    rw [priceAt_replicate n c i h, priceAt_replicate n c (i - 1) (by omega)]
    norm_num

theorem windowSum_zero (f : ℕ → ℚ) (lo len : ℕ)
    (hf : ∀ j, j < len → f (lo + j) = 0) :
    windowSum f lo len = 0 := by
  rw [windowSum]
  apply List.sum_eq_zero
  intro x hx
  simp only [List.mem_map, List.mem_range] at hx
  obtain ⟨j, hj, rfl⟩ := hx
  exact hf j hj

theorem avgGain_replicate (n : ℕ) (c : ℚ) (w i : ℕ) (h : i < n) :
    avgGain (List.replicate n c) w i = 0 := by
  simp only [avgGain, rollingMeanMinp1]
  rw [windowSum_zero _ _ _ (fun j hj => gainAt_replicate n c _ (by omega)),
    zero_div]

theorem avgLoss_replicate (n : ℕ) (c : ℚ) (w i : ℕ) (h : i < n) :
    avgLoss (List.replicate n c) w i = 0 := by
  simp only [avgLoss, rollingMeanMinp1]
  rw [windowSum_zero _ _ _ (fun j hj => lossAt_replicate n c _ (by omega)),
    zero_div]

theorem rsiRawAt_replicate (n : ℕ) (c : ℚ) (w i : ℕ) (h : i < n) :
    rsiRawAt (List.replicate n c) w i = 0 := by
  simp only [rsiRawAt]
  rw [if_pos (avgLoss_replicate n c w i h), avgGain_replicate n c w i h]
  norm_num

theorem rsiRaw_replicate (n : ℕ) (c : ℚ) (w : ℕ) :
    rsiRaw (List.replicate n c) w = List.replicate n 0 := by
  rw [rsiRaw]
  simp only [List.length_replicate]
  have hmem : ∀ b ∈ (List.range n).map (rsiRawAt (List.replicate n c) w),
      b = (0 : ℤ) := by
    intro b hb
    simp only [List.mem_map, List.mem_range] at hb
    obtain ⟨i, hi, rfl⟩ := hb
    exact rsiRawAt_replicate n c w i hi
  have heq := List.eq_replicate_of_mem hmem
  rwa [List.length_map, List.length_range] at heq

theorem shift1_replicate_zero (n : ℕ) :
    shift1 (List.replicate n 0) = List.replicate n 0 := by
  cases n with
  | zero => rfl
  | succ m =>
    rw [List.replicate_succ, shift1]
    congr 1
    rw [← List.replicate_succ, List.replicate_succ', List.dropLast_concat]

/-- C8: when the rolling average loss is zero while the rolling average
gain is positive, the float relative strength is `+inf`, the RSI is the
numeric limit `100 > 70`, and the raw (pre-shift) signal is Sell — no
error is raised; and on a constant price series of length `≥ window` the
RSI generator completes with every output signal Hold. -/
theorem rsi_zero_loss_sell_and_constant_hold (prices : List ℚ) (w i : ℕ)
    (c : ℚ) (n : ℕ) (hw : 1 < w) (hn : w ≤ n)
    (hal : avgLoss prices w i = 0) (hag : 0 < avgGain prices w i) :
    rsiRawAt prices w i = 1 ∧
    rsi_signals (List.replicate n c) w = Except.ok (List.replicate n 0) := by
  constructor
  · simp only [rsiRawAt]
    rw [if_pos hal, if_pos hag]
  · rw [rsi_signals, validate_input_window, if_neg (by omega : ¬ w ≤ 1)]
    simp only [Bind.bind, Except.bind, pure, Except.pure]
    rw [rsiRaw_replicate, shift1_replicate_zero]

theorem rsi_zero_loss_sell_and_constant_hold_witness :
    rsiRawAt [1, 2] 2 1 = 1 ∧
    rsi_signals (List.replicate 2 5) 2 = Except.ok (List.replicate 2 0) :=
  rsi_zero_loss_sell_and_constant_hold [1, 2] 2 1 5 2 (by norm_num)
    (by norm_num)
    (by norm_num [avgLoss, rollingMeanMinp1, windowSum, lossAt, priceAt,
      List.range_succ])
    (by norm_num [avgGain, rollingMeanMinp1, windowSum, gainAt, priceAt,
      List.range_succ])

/-- C9: `generate_signals` fails with `InvalidMethod` for every method
outside the four supported ones, before any indicator computation; for
`method = "macd"` with windows `> 1` it fails with
`InvalidWindowRelationship` whenever `short_window ≥ long_window` or
`signal_window > short_window`, and succeeds whenever
`short_window < long_window` and `signal_window ≤ short_window`. -/
theorem generate_signals_method_validation (prices : List ℚ)
    (method : String) (window : ℕ) (num_std_dev : ℚ)
    (short_window long_window signal_window : ℕ)
    (hsw : 1 < short_window) (hlw : 1 < long_window)
    (hgw : 1 < signal_window) :
    (method ∉ supportedMethods →
      generate_signals prices method window num_std_dev short_window
        long_window signal_window = Except.error SigError.invalidMethod) ∧
    (long_window ≤ short_window ∨ short_window < signal_window →
      generate_signals prices "macd" window num_std_dev short_window
        long_window signal_window =
        Except.error SigError.invalidWindowRelationship) ∧
    (short_window < long_window → signal_window ≤ short_window →
      generate_signals prices "macd" window num_std_dev short_window
        long_window signal_window =
        Except.ok (shift1 (macdRaw prices short_window long_window
          signal_window))) := by
  refine ⟨?_, ?_, ?_⟩
  · intro hm
    rw [generate_signals, validate_input_method, if_neg hm]
    rfl
  · intro hrel
    rw [generate_signals, validate_input_method,
      if_pos (by decide : ("macd" : String) ∈ supportedMethods)]
    simp only [Bind.bind, Except.bind]
    rw [if_neg (by decide : ¬(("macd" : String) = "bollinger")), if_true]
    rw [macd_signals, validate_input_macd_signals, validate_input_window,
      validate_input_window, validate_input_window,
      validate_window_relationships]
    rw [if_neg (by omega : ¬ short_window ≤ 1),
      if_neg (by omega : ¬ long_window ≤ 1),
      if_neg (by omega : ¬ signal_window ≤ 1)]
    rcases hrel with h | h
    · rw [if_pos h]
      rfl
    · by_cases hls : long_window ≤ short_window
      · rw [if_pos hls]
        rfl
      · rw [if_neg hls, if_pos h]
        rfl
  · intro h1 h2
    rw [generate_signals, validate_input_method,
      if_pos (by decide : ("macd" : String) ∈ supportedMethods)]
    simp only [Bind.bind, Except.bind]
    rw [if_neg (by decide : ¬(("macd" : String) = "bollinger")), if_true]
    rw [macd_signals, validate_input_macd_signals, validate_input_window,
      validate_input_window, validate_input_window,
      validate_window_relationships]
    rw [if_neg (by omega : ¬ short_window ≤ 1),
      if_neg (by omega : ¬ long_window ≤ 1),
      if_neg (by omega : ¬ signal_window ≤ 1),
      if_neg (by omega : ¬ long_window ≤ short_window),
      if_neg (by omega : ¬ short_window < signal_window)]
    rfl

theorem generate_signals_method_validation_witness :
    generate_signals [1] "ema" 2 1 3 5 2 =
      Except.error SigError.invalidMethod ∧
    generate_signals [1] "macd" 2 1 5 3 2 =
      Except.error SigError.invalidWindowRelationship ∧
    generate_signals [1] "macd" 2 1 3 5 2 =
      Except.ok (shift1 (macdRaw [1] 3 5 2)) :=
  ⟨(generate_signals_method_validation [1] "ema" 2 1 3 5 2 (by norm_num)
      (by norm_num) (by norm_num)).1 (by decide),
   (generate_signals_method_validation [1] "macd" 2 1 5 3 2 (by norm_num)
      (by norm_num) (by norm_num)).2.1 (Or.inl (by norm_num)),
   (generate_signals_method_validation [1] "macd" 2 1 3 5 2 (by norm_num)
      (by norm_num) (by norm_num)).2.2 (by norm_num) (by norm_num)⟩

end BacktestBay
